import Mathlib

/-!
Verification of the object-mover core of a relational storage backend
(`relstorage/adapters/mover.py`).

The mover maps a multi-version object store onto relational tables:

* `object_state`  — permanent object revisions.  In history-preserving
  mode its rows carry `(zoid, tid, prev_tid, md5, state_size, state)`;
  in history-free mode rows carry `(zoid, tid, state_size, state)` and
  the table is keyed by `zoid` alone.
* `current_object` — history-preserving mode only: one `(zoid, tid)`
  pointer per object to its latest revision.
* `temp_store` — the staging table of the in-flight transaction, at
  most one row `(zoid, prev_tid, md5, state)` per object.
* `blob_chunk` / `temp_blob_chunk` — permanent and staged blob chunks.

Tables are embedded as Lean lists of row structures; each SQL statement
of the source becomes a function on those lists.  `cursor.fetchone()`
after a `SELECT` is `List.find?`; a `WHERE` clause is `List.filter`;
an `INSERT ... SELECT` appends mapped rows; a `JOIN` is a `flatMap`.
Byte strings are lists of naturals; a nullable column is an `Option`.
-/

/-- A byte string (serialized object state, digest text, blob data). -/
abbrev Bytes := List Nat

/-- One row of the history-preserving `object_state` table. -/
structure ObjectStateRow where
  zoid : Nat
  tid : Nat
  prev_tid : Nat
  md5 : Option Bytes
  state_size : Nat
  state : Option Bytes
deriving DecidableEq

/-- One row of the history-free `object_state` table (no `prev_tid`
or `md5` column; keyed by `zoid` alone). -/
structure HFObjectStateRow where
  zoid : Nat
  tid : Nat
  state_size : Nat
  state : Option Bytes
deriving DecidableEq

/-- One row of the `current_object` pointer table. -/
structure CurrentObjectRow where
  zoid : Nat
  tid : Nat
deriving DecidableEq

/-- One row of the `temp_store` staging table. -/
structure TempStoreRow where
  zoid : Nat
  prev_tid : Nat
  md5 : Option Bytes
  state : Option Bytes
deriving DecidableEq

/-- One row of the permanent `blob_chunk` table. -/
structure BlobChunkRow where
  zoid : Nat
  tid : Nat
  chunk_num : Nat
  chunk : Bytes
deriving DecidableEq

/-- One row of the staged `temp_blob_chunk` table. -/
structure TempBlobChunkRow where
  zoid : Nat
  chunk_num : Nat
  chunk : Bytes
deriving DecidableEq

/-- The tables of a history-preserving installation. -/
structure HPDB where
  object_state : List ObjectStateRow
  current_object : List CurrentObjectRow
  temp_store : List TempStoreRow
  blob_chunk : List BlobChunkRow
  temp_blob_chunk : List TempBlobChunkRow
deriving DecidableEq

/-- The tables of a history-free installation (no `current_object`). -/
structure HFDB where
  object_state : List HFObjectStateRow
  temp_store : List TempStoreRow
  blob_chunk : List BlobChunkRow
  temp_blob_chunk : List TempBlobChunkRow
deriving DecidableEq

/-- A mover's database, in exactly one of the two storage modes
(`self.keep_history` in the source selects the constructor). -/
inductive MoverDB where
  | hp (db : HPDB)
  | hf (db : HFDB)
deriving DecidableEq

/-- The staging table, in either mode. -/
def MoverDB.temp_store : MoverDB → List TempStoreRow
  | .hp db => db.temp_store
  | .hf db => db.temp_store

/-- The history-preserving `object_state` table (empty for a
history-free database, which has no such table shape). -/
def MoverDB.hp_object_state : MoverDB → List ObjectStateRow
  | .hp db => db.object_state
  | .hf _ => []

/-- The staged blob-chunk table, in either mode. -/
def MoverDB.temp_blob_chunk : MoverDB → List TempBlobChunkRow
  | .hp db => db.temp_blob_chunk
  | .hf db => db.temp_blob_chunk

/-- The permanent blob-chunk table, in either mode. -/
def MoverDB.blob_chunk : MoverDB → List BlobChunkRow
  | .hp db => db.blob_chunk
  | .hf db => db.blob_chunk

/-- `SQL COALESCE(LENGTH(state), 0)`: the length of a nullable byte
column, zero when the column is null. -/
def stateLen : Option Bytes → Nat
  | none => 0
  | some s => s.length

/-- `AbstractObjectMover._compute_md5sum`: `None` for null data,
otherwise the hex digest of the data.  The `noop_when_history_free`
decorator makes the whole method return `None` in history-free mode.
The digest function itself (`hashlib.md5`) is an external collaborator
and is passed in as `md5hex`. -/
def compute_md5sum (md5hex : Bytes → Bytes) (keep_history : Bool)
    (data : Option Bytes) : Option Bytes :=
  if keep_history then
    match data with
    | none => none
    | some d => some (md5hex d)
  else none

/-- `AbstractObjectMover._generic_store_temp` with the default
`command='INSERT'` and empty suffix: delete any staged row for `oid`
from `temp_store`, then insert the new row
`(oid, prev_tid, md5, state)`. -/
def generic_store_temp (md5hex : Bytes → Bytes) (keep_history : Bool)
    (temp : List TempStoreRow) (oid prev_tid : Nat) (data : Bytes) :
    List TempStoreRow :=
  (temp.filter (fun t => !(t.zoid == oid))) ++
    [⟨oid, prev_tid, compute_md5sum md5hex keep_history (some data), some data⟩]

/-- `AbstractObjectMover.replace_temp`:
`UPDATE temp_store SET prev_tid = %s, md5 = %s, state = %s WHERE zoid = %s`.
Rows whose `zoid` matches have the three columns overwritten in place;
all other rows are untouched and no row is created or deleted. -/
def replace_temp (md5hex : Bytes → Bytes) (keep_history : Bool)
    (temp : List TempStoreRow) (oid prev_tid : Nat) (data : Bytes) :
    List TempStoreRow :=
  temp.map (fun t =>
    if t.zoid == oid then
      { t with prev_tid := prev_tid,
               md5 := compute_md5sum md5hex keep_history (some data),
               state := some data }
    else t)

/-- `replace_temp` as an operation on the whole database: the single
`UPDATE` statement touches only `temp_store`. -/
def replace_temp_db (md5hex : Bytes → Bytes) :
    MoverDB → Nat → Nat → Bytes → MoverDB
  | .hp db, oid, prev_tid, data =>
      .hp { db with
        temp_store := replace_temp md5hex true db.temp_store oid prev_tid data }
  | .hf db, oid, prev_tid, data =>
      .hf { db with
        temp_store := replace_temp md5hex false db.temp_store oid prev_tid data }

/-- `AbstractObjectMover.load_revision`:
`SELECT state FROM object_state WHERE zoid = %s AND tid = %s`, then
`fetchone()`; returns the row's (possibly null) state, or `None` when
no row matches. -/
def load_revision (os : List ObjectStateRow) (oid tid : Nat) : Option Bytes :=
  match os.find? (fun s => s.zoid == oid && s.tid == tid) with
  | some row => row.state
  | none => none

/-- `AbstractObjectMover.load_current` (history-preserving query):
`SELECT state, tid FROM current_object JOIN object_state USING (zoid, tid)
WHERE zoid = %s`, then `fetchone()`; returns `(state, tid)` for the
first joined row, or `(None, None)` when the join is empty. -/
def load_current (db : HPDB) (oid : Nat) : Option Bytes × Option Nat :=
  let rows := db.current_object.flatMap (fun c =>
    if c.zoid == oid then
      (db.object_state.filter
        (fun s => s.zoid == c.zoid && s.tid == c.tid)).map
        (fun s => (s.state, s.tid))
    else [])
  match rows.head? with
  | some (state, tid) => (state, some tid)
  | none => (none, none)

/-- `AbstractObjectMover.detect_conflict` (history-preserving query):
`SELECT zoid, current_object.tid, temp_store.prev_tid
 FROM temp_store JOIN current_object USING (zoid)
 WHERE temp_store.prev_tid != current_object.tid`, then `fetchall()`.
The history-free variant is the same join against the history-free
`object_state` (whose `(zoid, tid)` pairs play the current-pointer
role there).  `detect_conflict_row` is one staging row's contribution
to the join. -/
def detect_conflict_row (cur : List CurrentObjectRow) (t : TempStoreRow) :
    List (Nat × Nat × Nat) :=
  (cur.filter (fun c => c.zoid == t.zoid && !(t.prev_tid == c.tid))).map
    (fun c => (t.zoid, c.tid, t.prev_tid))

/-- The full conflict-detection join: every staging row against the
current pointers. -/
def detect_conflict (temp : List TempStoreRow) (cur : List CurrentObjectRow) :
    List (Nat × Nat × Nat) :=
  temp.flatMap (detect_conflict_row cur)

/-- The rows added by `_move_from_temp_hp_insert_query`:
`INSERT INTO object_state (zoid, tid, prev_tid, md5, state_size, state)
 SELECT zoid, %s, prev_tid, md5, COALESCE(LENGTH(state), 0), state
 FROM temp_store`. -/
def move_from_temp_hp_insert (temp : List TempStoreRow) (tid : Nat) :
    List ObjectStateRow :=
  temp.map (fun t => ⟨t.zoid, tid, t.prev_tid, t.md5, stateLen t.state, t.state⟩)

/-- `AbstractObjectMover._move_from_temp_object_state` (history-free):
`DELETE FROM object_state WHERE zoid IN (SELECT zoid FROM temp_store)`
followed by `_move_from_temp_hf_insert_query`:
`INSERT INTO object_state (zoid, tid, state_size, state)
 SELECT zoid, %s, COALESCE(LENGTH(state), 0), state FROM temp_store`. -/
def move_from_temp_object_state (os : List HFObjectStateRow)
    (temp : List TempStoreRow) (tid : Nat) : List HFObjectStateRow :=
  (os.filter (fun s => !(temp.any (fun t => t.zoid == s.zoid)))) ++
    temp.map (fun t => ⟨t.zoid, tid, stateLen t.state, t.state⟩)

/-- The rows added by `_move_from_temp_copy_blob_query`:
`INSERT INTO blob_chunk (zoid, tid, chunk_num, chunk)
 SELECT zoid, %s, chunk_num, chunk FROM temp_blob_chunk`. -/
def move_from_temp_copy_blob (tbc : List TempBlobChunkRow) (tid : Nat) :
    List BlobChunkRow :=
  tbc.map (fun t => ⟨t.zoid, tid, t.chunk_num, t.chunk⟩)

/-- `AbstractObjectMover.move_from_temp`: in history-preserving mode
run the insert-from-staging statement; in history-free mode replace
the staged objects' rows (and, when the transaction has blobs, drop
their obsolete blob chunks).  Either way, copy staged blob chunks when
present and return `SELECT zoid FROM temp_store` as a list. -/
def move_from_temp : MoverDB → Nat → Bool → MoverDB × List Nat
  | .hp db, tid, txn_has_blobs =>
      let db1 := { db with
        object_state := db.object_state ++ move_from_temp_hp_insert db.temp_store tid }
      let db2 := if txn_has_blobs then
          { db1 with blob_chunk :=
              db1.blob_chunk ++ move_from_temp_copy_blob db1.temp_blob_chunk tid }
        else db1
      (.hp db2, db2.temp_store.map (fun t => t.zoid))
  | .hf db, tid, txn_has_blobs =>
      let db1 := { db with
        object_state := move_from_temp_object_state db.object_state db.temp_store tid }
      let db2 := if txn_has_blobs then
          { db1 with blob_chunk := (db1.blob_chunk.filter
              (fun b => !(db1.temp_store.any (fun t => t.zoid == b.zoid)))) }
        else db1
      let db3 := if txn_has_blobs then
          { db2 with blob_chunk :=
              db2.blob_chunk ++ move_from_temp_copy_blob db2.temp_blob_chunk tid }
        else db2
      (.hf db3, db3.temp_store.map (fun t => t.zoid))

/-- The rows added by `_update_current_insert_query`:
`INSERT INTO current_object (zoid, tid)
 SELECT zoid, tid FROM object_state WHERE tid = %s AND prev_tid = 0`. -/
def update_current_insert (os : List ObjectStateRow) (tid : Nat) :
    List CurrentObjectRow :=
  (os.filter (fun s => s.tid == tid && s.prev_tid == 0)).map
    (fun s => ⟨s.zoid, s.tid⟩)

/-- The object ids selected by the subquery of
`_update_current_update_query`:
`SELECT zoid FROM object_state WHERE tid = %s AND prev_tid != 0
 ORDER BY zoid` — the ascending `ORDER BY` is modeled by sorting. -/
def update_current_zoids (os : List ObjectStateRow) (tid : Nat) : List Nat :=
  List.insertionSort (· ≤ ·)
    ((os.filter (fun s => s.tid == tid && !(s.prev_tid == 0))).map
      (fun s => s.zoid))

/-- Sequential processing of `UPDATE current_object SET tid = %s WHERE
zoid IN (...)`: the selected object ids are handled one at a time, in
the order of the given list. -/
def apply_current_updates (tid : Nat) (cur : List CurrentObjectRow) :
    List Nat → List CurrentObjectRow
  | [] => cur
  | z :: zs =>
      apply_current_updates tid
        (cur.map (fun c => if c.zoid == z then ⟨c.zoid, tid⟩ else c)) zs

/-- `AbstractObjectMover.update_current` in history-preserving mode:
the insert statement for newly created objects followed by the ordered
update statement for pre-existing ones. -/
def update_current_hp (db : HPDB) (tid : Nat) : HPDB :=
  { db with current_object :=
      (apply_current_updates tid
        (db.current_object ++ update_current_insert db.object_state tid)
        (update_current_zoids db.object_state tid)) }

/-- `AbstractObjectMover.update_current`: the `noop_when_history_free`
decorator makes it return immediately in history-free mode. -/
def update_current (mdb : MoverDB) (tid : Nat) : MoverDB :=
  match mdb with
  | .hp db => .hp (update_current_hp db tid)
  | .hf db => .hf db

/-- The dictionary update `res[oid] = tid` applied for each fetched
row of one chunk's query, in row order. -/
def current_object_tids_fold (res : Nat → Option Nat)
    (rows : List CurrentObjectRow) : Nat → Option Nat :=
  rows.foldl (fun r c => fun z => if z == c.zoid then some c.tid else r z) res

/-- The chunking loop of `AbstractObjectMover.current_object_tids`:
take the first `m + 1` ids (`oids[:1000]` in the source, so `m = 999`),
run `SELECT zoid, tid FROM current_object WHERE zoid IN (chunk)`,
absorb the fetched rows into the result dictionary, and continue with
the remaining ids (`del oids[:1000]`). -/
def current_object_tids_loop (m : Nat) (cur : List CurrentObjectRow) :
    List Nat → (Nat → Option Nat) → Nat → Option Nat
  | [], res => res
  | oid :: rest, res =>
      current_object_tids_loop m cur (rest.drop m)
        (current_object_tids_fold res
          (cur.filter (fun c => (oid :: rest.take m).contains c.zoid)))
  termination_by oids => oids.length
  decreasing_by
    simp only [List.length_drop, List.length_cons]
    exact Nat.lt_succ_of_le (Nat.sub_le _ _)

/-- `AbstractObjectMover.current_object_tids`: batched lookup of
current tids, in chunks of 1000 ids, starting from an empty
dictionary. -/
def current_object_tids (cur : List CurrentObjectRow) (oids : List Nat) :
    Nat → Option Nat :=
  current_object_tids_loop 999 cur oids (fun _ => none)

/-- Modelled from the claim's words (C2), for comparison with the
source: the `prev_tid` value the claim says `move_from_temp` writes —
the object's tid in the current-pointer table, or zero when the object
has no current pointer. -/
def claimed_prev_tid (cur : List CurrentObjectRow) (zoid : Nat) : Nat :=
  match cur.find? (fun c => c.zoid == zoid) with
  | some c => c.tid
  | none => 0

section ListHelpers

variable {α : Type} {β : Type}

lemma filter_all_false (p : α → Bool) (l : List α)
    (h : ∀ a ∈ l, p a = false) : l.filter p = [] := by
  induction l with
  | nil => rfl
  | cons x xs ih =>
    have hx := h x (List.mem_cons_self x xs)
    simp only [List.filter_cons, hx]
    exact ih fun a ha => h a (List.mem_cons_of_mem x ha)

lemma filter_all_true (p : α → Bool) (l : List α)
    (h : ∀ a ∈ l, p a = true) : l.filter p = l := by
  induction l with
  | nil => rfl
  | cons x xs ih =>
    have hx := h x (List.mem_cons_self x xs)
    simp only [List.filter_cons, hx, if_true]
    rw [ih fun a ha => h a (List.mem_cons_of_mem x ha)]

/-- On a list whose keys are distinct, filtering by one key value and a
side condition reduces to inspecting the unique row found for that key. -/
lemma filter_key_find (key : α → Nat) (l : List α) (z : Nat)
    (hnd : (l.map key).Nodup) (q : α → Bool) :
    l.filter (fun x => key x == z && q x) =
      (match l.find? (fun x => key x == z) with
      | some c => if q c then [c] else []
      | none => []) := by
  induction l with
  | nil => rfl
  | cons x xs ih =>
    rw [List.map_cons, List.nodup_cons] at hnd
    by_cases hx : key x = z
    · have hbeq : (key x == z) = true := by simpa using hx
      have hrest : ∀ a ∈ xs, ((key a == z && q a) : Bool) = false := by
        intro a ha
        have : ¬ key a = z := by
          intro hkz
          exact hnd.1 (by
            rw [← hkz] at hx
            exact hx ▸ List.mem_map_of_mem key ha)
        simp [this]
      rw [@List.find?_cons_of_pos α (fun y => key y == z) x xs hbeq, List.filter_cons]
      by_cases hq : q x = true
      · simp only [hbeq, hq, Bool.and_self, if_true]
        rw [filter_all_false _ xs hrest]
      · have hq' : q x = false := by simpa using hq
        simp only [hbeq, hq', Bool.and_false, if_false]
        rw [filter_all_false _ xs hrest]
    · have hbeq : (key x == z) = false := by simpa using hx
      rw [@List.find?_cons_of_neg α (fun y => key y == z) x xs (by simp [hbeq]),
        List.filter_cons]
      simp only [hbeq, Bool.false_and, if_false]
      exact ih hnd.2

lemma flatMap_all_nil (f : α → List β) (l : List α)
    (h : ∀ a ∈ l, f a = []) : l.flatMap f = [] := by
  induction l with
  | nil => rfl
  | cons x xs ih =>
    rw [List.flatMap_cons, h x (List.mem_cons_self x xs), List.nil_append]
    exact ih fun a ha => h a (List.mem_cons_of_mem x ha)

lemma head_filter_eq_find (p : α → Bool) (l : List α) :
    (l.filter p).head? = l.find? p := by
  induction l with
  | nil => rfl
  | cons x xs ih =>
    rw [List.filter_cons]
    by_cases hx : p x = true
    · rw [if_pos hx, @List.find?_cons_of_pos α p x xs hx]
      rfl
    · rw [if_neg hx, @List.find?_cons_of_neg α p x xs hx]
      exact ih

end ListHelpers

/-- Claim C7: staging the same object id twice within one transaction
(two `store_temp` calls going through `_generic_store_temp`) leaves
exactly one staging record for that object id, and its `prev_tid`,
fingerprint and state are those of the second call; staging records of
other object ids are exactly those of the original table. -/
theorem store_temp_twice_keeps_second (md5hex : Bytes → Bytes) (kh : Bool)
    (temp : List TempStoreRow) (oid p1 p2 : Nat) (d1 d2 : Bytes) :
    (generic_store_temp md5hex kh
        (generic_store_temp md5hex kh temp oid p1 d1) oid p2 d2).filter
        (fun t => t.zoid == oid)
      = [⟨oid, p2, compute_md5sum md5hex kh (some d2), some d2⟩]
    ∧ (generic_store_temp md5hex kh
        (generic_store_temp md5hex kh temp oid p1 d1) oid p2 d2).filter
        (fun t => !(t.zoid == oid))
      = temp.filter (fun t => !(t.zoid == oid)) := by
  have hAA : (temp.filter (fun t => !(t.zoid == oid))).filter
      (fun t => !(t.zoid == oid)) = temp.filter (fun t => !(t.zoid == oid)) := by
    rw [List.filter_filter]
    exact List.filter_congr fun t _ => Bool.and_self _
  have key : generic_store_temp md5hex kh
      (generic_store_temp md5hex kh temp oid p1 d1) oid p2 d2
      = temp.filter (fun t => !(t.zoid == oid)) ++
        [⟨oid, p2, compute_md5sum md5hex kh (some d2), some d2⟩] := by
    rw [generic_store_temp, generic_store_temp, List.filter_append, hAA]
    simp
  rw [key]
  constructor
  · rw [List.filter_append]
    have h1 : (temp.filter (fun t => !(t.zoid == oid))).filter
        (fun t => t.zoid == oid) = [] := by
      apply filter_all_false
      intro t ht
      have hneg := (List.mem_filter.mp ht).2
      simpa using hneg
    rw [h1]
    simp
  · rw [List.filter_append, hAA]
    simp

/-- Claim C8: `replace_temp(oid, prev_tid, data)` mutates only the
`prev_tid`, `md5` and `state` fields of the staging rows for `oid` —
it creates no staging row (the row count is unchanged), leaves every
staging record of other object ids unchanged, and leaves the staged
blob chunks (and the permanent tables) untouched. -/
theorem replace_temp_in_place (md5hex : Bytes → Bytes) (kh : Bool)
    (temp : List TempStoreRow) (oid p : Nat) (d : Bytes) (mdb : MoverDB) :
    (replace_temp md5hex kh temp oid p d).length = temp.length
    ∧ (replace_temp md5hex kh temp oid p d).filter (fun t => !(t.zoid == oid))
        = temp.filter (fun t => !(t.zoid == oid))
    ∧ (replace_temp md5hex kh temp oid p d).filter (fun t => t.zoid == oid)
        = (temp.filter (fun t => t.zoid == oid)).map
            (fun t => ⟨t.zoid, p, compute_md5sum md5hex kh (some d), some d⟩)
    ∧ (replace_temp_db md5hex mdb oid p d).temp_blob_chunk = mdb.temp_blob_chunk
    ∧ (replace_temp_db md5hex mdb oid p d).blob_chunk = mdb.blob_chunk
    ∧ (replace_temp_db md5hex mdb oid p d).hp_object_state = mdb.hp_object_state := by
  have hdef : replace_temp md5hex kh temp oid p d = temp.map (fun t =>
      if t.zoid == oid then
        (⟨t.zoid, p, compute_md5sum md5hex kh (some d), some d⟩ : TempStoreRow)
      else t) := rfl
  have hzoid : ∀ t : TempStoreRow,
      (if t.zoid == oid then
        (⟨t.zoid, p, compute_md5sum md5hex kh (some d), some d⟩ : TempStoreRow)
      else t).zoid = t.zoid := by
    intro t
    by_cases h : t.zoid == oid <;> simp [h]
  refine ⟨?_, ?_, ?_, ?_, ?_, ?_⟩
  · rw [hdef, List.length_map]
  · rw [hdef, List.filter_map]
    have hcongr : (temp.filter
        ((fun t => !(t.zoid == oid)) ∘ (fun t =>
          if t.zoid == oid then
            (⟨t.zoid, p, compute_md5sum md5hex kh (some d), some d⟩ : TempStoreRow)
          else t)))
        = temp.filter (fun t => !(t.zoid == oid)) := by
      apply List.filter_congr
      intro t _
      simp only [Function.comp_apply, hzoid t]
    rw [hcongr]
    have hmap : (temp.filter (fun t => !(t.zoid == oid))).map (fun t =>
        if t.zoid == oid then
          (⟨t.zoid, p, compute_md5sum md5hex kh (some d), some d⟩ : TempStoreRow)
        else t)
        = (temp.filter (fun t => !(t.zoid == oid))).map (fun t => t) := by
      apply List.map_congr_left
      intro t ht
      have hneg := (List.mem_filter.mp ht).2
      have h : (t.zoid == oid) = false := by simpa using hneg
      simp [h]
    rw [hmap, List.map_id']
  · rw [hdef, List.filter_map]
    have hcongr : (temp.filter
        ((fun t => t.zoid == oid) ∘ (fun t =>
          if t.zoid == oid then
            (⟨t.zoid, p, compute_md5sum md5hex kh (some d), some d⟩ : TempStoreRow)
          else t)))
        = temp.filter (fun t => t.zoid == oid) := by
      apply List.filter_congr
      intro t _
      simp only [Function.comp_apply, hzoid t]
    rw [hcongr]
    apply List.map_congr_left
    intro t ht
    have hpos := (List.mem_filter.mp ht).2
    simp [hpos]
  · cases mdb <;> rfl
  · cases mdb <;> rfl
  · cases mdb <;> rfl

/-- Claim C4: `move_from_temp(tid, has_blobs)` returns exactly the
object ids present in `temp_store` at the time of the call, in both
storage modes: the returned list is the staged ids, so an id is in it
exactly when some staging record carries it. -/
theorem move_from_temp_returns_staged (mdb : MoverDB) (tid : Nat) (hb : Bool) :
    (move_from_temp mdb tid hb).2 = mdb.temp_store.map (fun t => t.zoid)
    ∧ ∀ oid, oid ∈ (move_from_temp mdb tid hb).2 ↔
        ∃ t ∈ mdb.temp_store, t.zoid = oid := by
  have h1 : (move_from_temp mdb tid hb).2 = mdb.temp_store.map (fun t => t.zoid) := by
    cases mdb <;> cases hb <;> rfl
  refine ⟨h1, fun oid => ?_⟩
  rw [h1, List.mem_map]

/-- Claim C2, counterexample: with object 1 staged with `prev_tid = 50`
while its current pointer reads tid 100, the history-preserving
`move_from_temp` inserts a revision whose `prev_tid` column is the
staged 50, not the current-pointer value the claim prescribes. -/
theorem move_from_temp_prev_tid_counterexample :
    ¬ (∀ r ∈ (move_from_temp
          (.hp ⟨[], [⟨1, 100⟩], [⟨1, 50, none, some []⟩], [], []⟩)
          200 false).1.hp_object_state,
        r.prev_tid = claimed_prev_tid [⟨1, 100⟩] r.zoid) := by decide

/-- Claim C2 as amended: in history-preserving mode `move_from_temp`
inserts, per staging record, one new `object_state` revision whose
`prev_tid` column is the staging record's `prev_tid` (not a fresh
current-pointer lookup) and whose `tid` column is the given tid;
when conflict detection reported no conflict and every staged object
without a current pointer was staged with prior tid zero, that staged
`prev_tid` does coincide with the claim's current-tid-or-zero value. -/
theorem move_from_temp_hp_inserts_staged_prev (db : HPDB) (tid : Nat) (hb : Bool) :
    (move_from_temp (.hp db) tid hb).1.hp_object_state
      = db.object_state ++ db.temp_store.map
          (fun t => ⟨t.zoid, tid, t.prev_tid, t.md5, stateLen t.state, t.state⟩)
    ∧ (detect_conflict db.temp_store db.current_object = [] →
       (∀ t ∈ db.temp_store,
          (∀ c ∈ db.current_object, c.zoid ≠ t.zoid) → t.prev_tid = 0) →
       ∀ t ∈ db.temp_store, t.prev_tid = claimed_prev_tid db.current_object t.zoid) := by
  constructor
  · cases hb <;> rfl
  · intro hdet hzero t ht
    cases hfind : db.current_object.find? (fun c => c.zoid == t.zoid) with
    | none =>
      rw [claimed_prev_tid, hfind]
      exact hzero t ht fun c hc =>
        by simpa using List.find?_eq_none.mp hfind c hc
    | some c =>
      rw [claimed_prev_tid, hfind]
      have hc : c ∈ db.current_object := List.mem_of_find?_eq_some hfind
      have hz : c.zoid = t.zoid := by simpa using List.find?_some hfind
      by_contra hne
      have hmem : (t.zoid, c.tid, t.prev_tid) ∈
          detect_conflict db.temp_store db.current_object := by
        rw [detect_conflict]
        apply List.mem_flatMap.mpr
        refine ⟨t, ht, ?_⟩
        rw [detect_conflict_row]
        apply List.mem_map.mpr
        refine ⟨c, List.mem_filter.mpr ⟨hc, ?_⟩, rfl⟩
        have hne' : ¬ t.prev_tid = c.tid := hne
        simp [hz, hne']
      rw [hdet] at hmem
      exact absurd hmem (List.not_mem_nil _)

/-- Witness for the amended C2 on the spec's example scenario: staging
object 7 with prior tid 0 against an empty store and moving at tid 100
inserts exactly the revision `(7, 100, 0, …)`, and the staged prior
tid agrees with the claim's current-tid-or-zero value. -/
theorem move_from_temp_hp_inserts_staged_prev_witness :
    (move_from_temp (.hp ⟨[], [], [⟨7, 0, none, some [65]⟩], [], []⟩)
        100 false).1.hp_object_state
      = [⟨7, 100, 0, none, 1, some [65]⟩]
    ∧ (⟨7, 0, none, some [65]⟩ : TempStoreRow).prev_tid
      = claimed_prev_tid [] 7 := by
  have h := move_from_temp_hp_inserts_staged_prev
    ⟨[], [], [⟨7, 0, none, some [65]⟩], [], []⟩ 100 false
  exact ⟨h.1.trans (by decide), h.2 (by decide) (by decide) _ (by decide)⟩

lemma detect_conflict_row_fst (cur : List CurrentObjectRow) (t : TempStoreRow) :
    ∀ x ∈ detect_conflict_row cur t, x.1 = t.zoid := by
  intro x hx
  rcases List.mem_map.mp hx with ⟨c, -, hc⟩
  rw [← hc]

lemma detect_conflict_filter_nil (ts : List TempStoreRow)
    (cur : List CurrentObjectRow) (oid : Nat)
    (h : ∀ t ∈ ts, t.zoid ≠ oid) :
    (detect_conflict ts cur).filter (fun x => x.1 == oid) = [] := by
  apply filter_all_false
  intro x hx
  rcases List.mem_flatMap.mp hx with ⟨t, ht, hxt⟩
  have hfst : x.1 = t.zoid := detect_conflict_row_fst cur t x hxt
  have : ¬ x.1 = oid := by rw [hfst]; exact h t ht
  simpa using this

/-- On a key-unique current-pointer table, one staging row's
contribution to the conflict join is empty when the row's object has
no current pointer or its staged prior tid matches, and is exactly the
one expected tuple otherwise. -/
lemma detect_conflict_row_eq (cur : List CurrentObjectRow) (t : TempStoreRow)
    (hnc : (cur.map (fun c => c.zoid)).Nodup) :
    detect_conflict_row cur t =
      (match cur.find? (fun c => c.zoid == t.zoid) with
      | some c =>
          if t.prev_tid == c.tid then [] else [(t.zoid, c.tid, t.prev_tid)]
      | none => []) := by
  rw [detect_conflict_row,
    filter_key_find (fun c => c.zoid) cur t.zoid hnc
      (fun c => !(t.prev_tid == c.tid))]
  cases hfind : cur.find? (fun c => c.zoid == t.zoid) with
  | none => rfl
  | some c =>
    by_cases h : t.prev_tid == c.tid
    · simp [h]
    · have h' : (t.prev_tid == c.tid) = false := by simpa using h
      simp [h']

/-- Claim C1: run after staging, conflict detection emits, for every
staged object that has a current pointer whose tid differs from the
staged prior tid, exactly the one tuple
`(oid, true_current_tid, staged_prior_tid)`; it emits nothing for a
staged object whose prior tid matches its current pointer, nothing for
a staged object with no current pointer, and nothing for ids that are
not staged.  Stated per object id: the tuples whose first component is
`oid` are computed from the unique staging row and unique current
pointer for `oid`. -/
theorem detect_conflict_correct (temp : List TempStoreRow)
    (cur : List CurrentObjectRow)
    (hnt : (temp.map (fun t => t.zoid)).Nodup)
    (hnc : (cur.map (fun c => c.zoid)).Nodup) (oid : Nat) :
    (detect_conflict temp cur).filter (fun x => x.1 == oid) =
      (match temp.find? (fun t => t.zoid == oid),
             cur.find? (fun c => c.zoid == oid) with
      | some t, some c =>
          if t.prev_tid == c.tid then [] else [(oid, c.tid, t.prev_tid)]
      | _, _ => []) := by
  induction temp with
  | nil => rfl
  | cons t ts ih =>
    rw [List.map_cons, List.nodup_cons] at hnt
    have hstep : detect_conflict (t :: ts) cur =
        detect_conflict_row cur t ++ detect_conflict ts cur := by
      rw [detect_conflict, List.flatMap_cons, detect_conflict]
    rw [hstep, List.filter_append]
    by_cases hz : t.zoid = oid
    · have hbeq : (t.zoid == oid) = true := by simpa using hz
      rw [@List.find?_cons_of_pos TempStoreRow (fun r => r.zoid == oid) t ts hbeq]
      have htail : (detect_conflict ts cur).filter (fun x => x.1 == oid) = [] := by
        apply detect_conflict_filter_nil
        intro t' ht' he
        exact hnt.1 (by
          rw [hz, ← he]
          exact List.mem_map_of_mem (fun r => r.zoid) ht')
      rw [htail, List.append_nil]
      have hrow : (detect_conflict_row cur t).filter (fun x => x.1 == oid)
          = detect_conflict_row cur t := by
        apply filter_all_true
        intro x hx
        have : x.1 = t.zoid := detect_conflict_row_fst cur t x hx
        simp [this, hz]
      rw [hrow, detect_conflict_row_eq cur t hnc, hz]
      cases hfind : cur.find? (fun c => c.zoid == oid) with
      | none => rfl
      | some c =>
        by_cases h : t.prev_tid == c.tid
        · simp [h]
        · have h' : (t.prev_tid == c.tid) = false := by simpa using h
          simp [h', hz]
    · have hbeq : ¬ ((t.zoid == oid) = true) := by simpa using hz
      rw [@List.find?_cons_of_neg TempStoreRow (fun r => r.zoid == oid) t ts hbeq]
      have hrow : (detect_conflict_row cur t).filter (fun x => x.1 == oid) = [] := by
        apply filter_all_false
        intro x hx
        have hfst : x.1 = t.zoid := detect_conflict_row_fst cur t x hx
        have : ¬ x.1 = oid := by rw [hfst]; exact hz
        simpa using this
      rw [hrow, List.nil_append]
      exact ih hnt.2

/-- Witness for C1 on the spec's conflict scenario: object 7 staged
with prior tid 50 against a current pointer at tid 100 yields exactly
the tuple `(7, 100, 50)`. -/
theorem detect_conflict_correct_witness :
    (detect_conflict [⟨7, 50, none, some [66]⟩] [⟨7, 100⟩]).filter
      (fun x => x.1 == 7) = [(7, 100, 50)] := by
  have h := detect_conflict_correct [⟨7, 50, none, some [66]⟩] [⟨7, 100⟩]
    (by decide) (by decide) 7
  exact h.trans (by decide)

/-- On a key-unique current-pointer table, the `load_current` join
reduces to looking up the (unique) pointer row and then its revision. -/
lemma current_join_eq (os : List ObjectStateRow) (cur : List CurrentObjectRow)
    (oid : Nat) (hnc : (cur.map (fun c => c.zoid)).Nodup) :
    (cur.flatMap (fun c =>
      if c.zoid == oid then
        (os.filter (fun s => s.zoid == c.zoid && s.tid == c.tid)).map
          (fun s => (s.state, s.tid))
      else [])) =
    (match cur.find? (fun c => c.zoid == oid) with
    | some c => (os.filter (fun s => s.zoid == c.zoid && s.tid == c.tid)).map
        (fun s => (s.state, s.tid))
    | none => []) := by
  induction cur with
  | nil => rfl
  | cons c cs ih =>
    rw [List.map_cons, List.nodup_cons] at hnc
    rw [List.flatMap_cons]
    by_cases hz : c.zoid = oid
    · have hbeq : (c.zoid == oid) = true := by simpa using hz
      rw [@List.find?_cons_of_pos CurrentObjectRow (fun x => x.zoid == oid) c cs hbeq]
      have htail : (cs.flatMap (fun c' =>
          if c'.zoid == oid then
            (os.filter (fun s => s.zoid == c'.zoid && s.tid == c'.tid)).map
              (fun s => (s.state, s.tid))
          else [])) = [] := by
        apply flatMap_all_nil
        intro c' hc'
        have hne : ¬ c'.zoid = oid := fun he => hnc.1 (by
          rw [hz, ← he]
          exact List.mem_map_of_mem (fun x => x.zoid) hc')
        simp [hne]
      rw [htail, List.append_nil]
      simp [hbeq]
    · have hbeq : (c.zoid == oid) = false := by simpa using hz
      rw [@List.find?_cons_of_neg CurrentObjectRow (fun x => x.zoid == oid) c cs
        (by simp [hbeq])]
      simp only [hbeq, Bool.false_eq_true, if_false, List.nil_append]
      exact ih hnc.2

/-- The pair `load_current` builds once the unique pointer row `c` is
known: the revision lookup at `(c.zoid, c.tid)`. -/
def current_lookup_result (os : List ObjectStateRow) (c : CurrentObjectRow) :
    Option Bytes × Option Nat :=
  match os.find? (fun s => s.zoid == c.zoid && s.tid == c.tid) with
  | some s => (s.state, some s.tid)
  | none => (none, none)

/-- `load_current` in terms of the two lookups it performs, on a
key-unique current-pointer table. -/
lemma load_current_eq (db : HPDB) (oid : Nat)
    (hnc : (db.current_object.map (fun c => c.zoid)).Nodup) :
    load_current db oid =
      (match db.current_object.find? (fun c => c.zoid == oid) with
      | some c => current_lookup_result db.object_state c
      | none => (none, none)) := by
  rw [load_current]
  rw [current_join_eq db.object_state db.current_object oid hnc]
  cases hfind : db.current_object.find? (fun c => c.zoid == oid) with
  | none => rfl
  | some c =>
    show (match ((db.object_state.filter
        (fun s => s.zoid == c.zoid && s.tid == c.tid)).map
        (fun s => (s.state, s.tid))).head? with
      | some (state, tid) => (state, some tid)
      | none => (none, none)) = current_lookup_result db.object_state c
    rw [List.head?_map, head_filter_eq_find, current_lookup_result]
    cases hs : db.object_state.find?
        (fun s => s.zoid == c.zoid && s.tid == c.tid) with
    | none => rfl
    | some s => rfl

/-- Claim C10: `load_revision(oid, tid)` returns the same absent
sentinel (`none`) both when no revision of `oid` exists at `tid` and
when the revision exists with a null state (creation undone); in
contrast `load_current` distinguishes the two, answering
`(none, none)` for an object with no current pointer but
`(none, some tid)` for an object whose current revision is undone. -/
theorem load_revision_conflates_missing_and_undone (db : HPDB) (oid tid : Nat)
    (hnc : (db.current_object.map (fun c => c.zoid)).Nodup) :
    ((db.object_state.find? (fun s => s.zoid == oid && s.tid == tid) = none) →
      load_revision db.object_state oid tid = none)
    ∧ (∀ r, db.object_state.find? (fun s => s.zoid == oid && s.tid == tid) = some r →
        r.state = none → load_revision db.object_state oid tid = none)
    ∧ ((db.current_object.find? (fun c => c.zoid == oid) = none) →
        load_current db oid = (none, none))
    ∧ (∀ c r, db.current_object.find? (fun c => c.zoid == oid) = some c →
        db.object_state.find? (fun s => s.zoid == c.zoid && s.tid == c.tid) = some r →
        r.state = none → load_current db oid = (none, some r.tid)) := by
  refine ⟨?_, ?_, ?_, ?_⟩
  · intro h
    rw [load_revision]
    simp only [h]
  · intro r hr hstate
    rw [load_revision]
    simp only [hr, hstate]
  · intro h
    rw [load_current_eq db oid hnc]
    simp only [h]
  · intro c r hc hr hstate
    rw [load_current_eq db oid hnc]
    simp only [hc, current_lookup_result, hr, hstate]

/-- Witness for C10: with object 7's creation undone at tid 120 (a
revision whose state is null) and its current pointer at 120,
`load_revision` answers `none` both for the missing revision at tid 50
and for the undone revision at tid 120, while `load_current` answers
`(none, some 120)` — and `(none, none)` for the absent object 8. -/
theorem load_revision_conflates_missing_and_undone_witness :
    load_revision [⟨7, 120, 0, none, 0, none⟩] 7 50 = none
    ∧ load_revision [⟨7, 120, 0, none, 0, none⟩] 7 120 = none
    ∧ load_current ⟨[⟨7, 120, 0, none, 0, none⟩], [⟨7, 120⟩], [], [], []⟩ 7
        = (none, some 120)
    ∧ load_current ⟨[⟨7, 120, 0, none, 0, none⟩], [⟨7, 120⟩], [], [], []⟩ 8
        = (none, none) := by
  have h50 := load_revision_conflates_missing_and_undone
    ⟨[⟨7, 120, 0, none, 0, none⟩], [⟨7, 120⟩], [], [], []⟩ 7 50 (by decide)
  have h120 := load_revision_conflates_missing_and_undone
    ⟨[⟨7, 120, 0, none, 0, none⟩], [⟨7, 120⟩], [], [], []⟩ 7 120 (by decide)
  have h8 := load_revision_conflates_missing_and_undone
    ⟨[⟨7, 120, 0, none, 0, none⟩], [⟨7, 120⟩], [], [], []⟩ 8 120 (by decide)
  exact ⟨h50.1 (by decide),
    h120.2.1 ⟨7, 120, 0, none, 0, none⟩ (by decide) rfl,
    h120.2.2.2 ⟨7, 120⟩ ⟨7, 120, 0, none, 0, none⟩ (by decide) (by decide) rfl,
    h8.2.2.1 (by decide)⟩

/-- Processing the update list sequentially is the same as updating
every pointer row whose object id occurs in the list. -/
lemma apply_current_updates_eq (tid : Nat) (zs : List Nat) :
    ∀ cur : List CurrentObjectRow,
      apply_current_updates tid cur zs =
        cur.map (fun c => if zs.contains c.zoid then ⟨c.zoid, tid⟩ else c) := by
  induction zs with
  | nil =>
    intro cur
    rw [apply_current_updates]
    have h1 : cur.map (fun c =>
        if ([] : List Nat).contains c.zoid then (⟨c.zoid, tid⟩ : CurrentObjectRow)
        else c) = cur.map (fun c => c) :=
      List.map_congr_left fun c _ => rfl
    rw [h1, List.map_id']
  | cons z zs ih =>
    intro cur
    rw [apply_current_updates, ih, List.map_map]
    apply List.map_congr_left
    intro c _
    simp only [Function.comp_apply]
    by_cases h : c.zoid = z
    · have hbeq : (c.zoid == z) = true := by simpa using h
      simp [List.contains_cons, hbeq]
      rw [if_pos (Or.inl h)]
    · have hbeq : (c.zoid == z) = false := by simpa using h
      simp [List.contains_cons, hbeq, h]

/-- Claim C5: `update_current(tid)` is a no-op in history-free mode;
in history-preserving mode it adds a current-pointer row `(zoid, tid)`
for every object with a revision at `tid` whose `prev_tid` is zero,
and repoints the existing current-pointer row to `tid` for every
object with a revision at `tid` whose `prev_tid` is non-zero; the new
pointer table is exactly the old one plus the inserted rows, with the
selected object ids repointed. -/
theorem update_current_spec :
    (∀ (db : HFDB) (tid : Nat), update_current (.hf db) tid = .hf db)
    ∧ (∀ (db : HPDB) (tid : Nat),
        (update_current_hp db tid).current_object =
          (db.current_object ++ update_current_insert db.object_state tid).map
            (fun c => if (update_current_zoids db.object_state tid).contains c.zoid
              then ⟨c.zoid, tid⟩ else c))
    ∧ (∀ (db : HPDB) (tid : Nat) (s : ObjectStateRow), s ∈ db.object_state →
        s.tid = tid → s.prev_tid = 0 →
        (⟨s.zoid, tid⟩ : CurrentObjectRow) ∈ (update_current_hp db tid).current_object)
    ∧ (∀ (db : HPDB) (tid : Nat) (c : CurrentObjectRow), c ∈ db.current_object →
        (∃ s ∈ db.object_state, s.zoid = c.zoid ∧ s.tid = tid ∧ s.prev_tid ≠ 0) →
        (⟨c.zoid, tid⟩ : CurrentObjectRow) ∈ (update_current_hp db tid).current_object) := by
  have hhp : ∀ (db : HPDB) (tid : Nat),
      (update_current_hp db tid).current_object =
        (db.current_object ++ update_current_insert db.object_state tid).map
          (fun c => if (update_current_zoids db.object_state tid).contains c.zoid
            then ⟨c.zoid, tid⟩ else c) := by
    intro db tid
    rw [update_current_hp]
    exact apply_current_updates_eq tid _ _
  refine ⟨fun db tid => rfl, hhp, ?_, ?_⟩
  · intro db tid s hs htid hprev
    rw [hhp]
    have hmem : (⟨s.zoid, s.tid⟩ : CurrentObjectRow) ∈
        db.current_object ++ update_current_insert db.object_state tid := by
      apply List.mem_append_right
      rw [update_current_insert]
      exact List.mem_map.mpr ⟨s, List.mem_filter.mpr ⟨hs, by simp [htid, hprev]⟩, rfl⟩
    apply List.mem_map.mpr
    refine ⟨⟨s.zoid, s.tid⟩, hmem, ?_⟩
    rw [htid]
    by_cases h : (update_current_zoids db.object_state tid).contains s.zoid <;> simp [h]
  · intro db tid c hc hex
    rcases hex with ⟨s, hs, hz, htid, hprev⟩
    rw [hhp]
    apply List.mem_map.mpr
    refine ⟨c, List.mem_append_left _ hc, ?_⟩
    have hmemz : c.zoid ∈ update_current_zoids db.object_state tid := by
      rw [update_current_zoids]
      apply (List.perm_insertionSort (· ≤ ·) _).mem_iff.mpr
      exact List.mem_map.mpr ⟨s, List.mem_filter.mpr ⟨hs, by simp [htid, hprev]⟩, hz⟩
    have hcont : (update_current_zoids db.object_state tid).contains c.zoid = true :=
      List.elem_iff.mpr hmemz
    rw [if_pos hcont]

/-- Witness for C5 on a concrete database: with revisions
`(zoid 4, tid 9, prev 0)` and `(zoid 3, tid 9, prev 2)` and an old
pointer `3 ↦ 2`, `update_current` leaves history-free state untouched,
repoints 3 to tid 9 and inserts the pointer `4 ↦ 9`. -/
theorem update_current_spec_witness :
    update_current (.hf ⟨[], [], [], []⟩) 9 = .hf ⟨[], [], [], []⟩
    ∧ (⟨4, 9⟩ : CurrentObjectRow) ∈ (update_current_hp
        ⟨[⟨4, 9, 0, none, 0, none⟩, ⟨3, 9, 2, none, 0, none⟩], [⟨3, 2⟩], [], [], []⟩
        9).current_object
    ∧ (⟨3, 9⟩ : CurrentObjectRow) ∈ (update_current_hp
        ⟨[⟨4, 9, 0, none, 0, none⟩, ⟨3, 9, 2, none, 0, none⟩], [⟨3, 2⟩], [], [], []⟩
        9).current_object := by
  refine ⟨update_current_spec.1 ⟨[], [], [], []⟩ 9, ?_, ?_⟩
  · exact update_current_spec.2.2.1
      ⟨[⟨4, 9, 0, none, 0, none⟩, ⟨3, 9, 2, none, 0, none⟩], [⟨3, 2⟩], [], [], []⟩
      9 ⟨4, 9, 0, none, 0, none⟩ (by decide) rfl rfl
  · exact update_current_spec.2.2.2
      ⟨[⟨4, 9, 0, none, 0, none⟩, ⟨3, 9, 2, none, 0, none⟩], [⟨3, 2⟩], [], [], []⟩
      9 ⟨3, 2⟩ (by decide)
      ⟨⟨3, 9, 2, none, 0, none⟩, by decide, rfl, rfl, by decide⟩

/-- Claim C6: the pre-existing objects whose current pointers
`update_current` repoints are processed in strictly ascending
object-id order — if two selected ids `a < b` sit at positions `i` and
`j` of the processed list, then `i < j`, i.e. `a` is updated first. -/
theorem update_current_ascending (os : List ObjectStateRow) (tid : Nat)
    (i j : Fin (update_current_zoids os tid).length)
    (hlt : (update_current_zoids os tid).get i < (update_current_zoids os tid).get j) :
    (i : Nat) < (j : Nat) := by
  have hs : List.Sorted (· ≤ ·) (update_current_zoids os tid) := by
    rw [update_current_zoids]
    exact List.sorted_insertionSort (· ≤ ·) _
  rcases Nat.lt_trichotomy (i : Nat) (j : Nat) with h | h | h
  · exact h
  · exfalso
    rw [Fin.ext h] at hlt
    exact lt_irrefl _ hlt
  · exfalso
    have hji : j < i := h
    have hle := List.pairwise_iff_get.mp hs j i hji
    exact absurd hlt (not_lt.mpr hle)

/-- Witness for C6: with revisions for objects 5 and 3 at tid 9 (both
pre-existing), the processed list is `[3, 5]` and the update for 3
precedes the update for 5. -/
theorem update_current_ascending_witness :
    ((⟨0, by decide⟩ : Fin (update_current_zoids
        [⟨5, 9, 1, none, 0, none⟩, ⟨3, 9, 2, none, 0, none⟩] 9).length) : Nat)
    < ((⟨1, by decide⟩ : Fin (update_current_zoids
        [⟨5, 9, 1, none, 0, none⟩, ⟨3, 9, 2, none, 0, none⟩] 9).length) : Nat) :=
  update_current_ascending [⟨5, 9, 1, none, 0, none⟩, ⟨3, 9, 2, none, 0, none⟩] 9
    ⟨0, by decide⟩ ⟨1, by decide⟩ (by decide)

/-- Claim C3: in history-free mode the move deletes every `object_state`
row whose object id is staged and then inserts one fresh row per staged
object at the new tid; hence after two successive commits of the same
object id (staged once in each transaction), exactly one `object_state`
row exists for it, carrying the later transaction id and the later
staged state. -/
theorem move_from_temp_hf_replaces (os : List HFObjectStateRow)
    (temp1 temp2 : List TempStoreRow) (tid1 tid2 oid : Nat) (t : TempStoreRow)
    (h1 : ∃ r ∈ temp1, r.zoid = oid)
    (h2 : temp2.filter (fun r => r.zoid == oid) = [t]) :
    (move_from_temp_object_state
        (move_from_temp_object_state os temp1 tid1) temp2 tid2).filter
      (fun s => s.zoid == oid)
      = [⟨oid, tid2, stateLen t.state, t.state⟩] := by
  have htmem : t ∈ temp2.filter (fun r => r.zoid == oid) := by
    rw [h2]
    exact List.mem_cons_self t []
  have ht2 : t ∈ temp2 := (List.mem_filter.mp htmem).1
  have htz : t.zoid = oid := by simpa using (List.mem_filter.mp htmem).2
  rw [move_from_temp_object_state, List.filter_append]
  have hdel : ((move_from_temp_object_state os temp1 tid1).filter
      (fun s => !(temp2.any (fun r => r.zoid == s.zoid)))).filter
      (fun s => s.zoid == oid) = [] := by
    rw [List.filter_filter]
    apply filter_all_false
    intro s _
    by_cases hz : s.zoid = oid
    · have hany : (temp2.any (fun r => r.zoid == s.zoid)) = true :=
        List.any_eq_true.mpr ⟨t, ht2, by simp [htz, hz]⟩
      simp [hany]
    · have hbeq : (s.zoid == oid) = false := by simpa using hz
      simp [hbeq]
  rw [hdel, List.nil_append, List.filter_map]
  have hpred : (temp2.filter ((fun s => s.zoid == oid) ∘
      (fun r => (⟨r.zoid, tid2, stateLen r.state, r.state⟩ : HFObjectStateRow))))
      = temp2.filter (fun r => r.zoid == oid) :=
    List.filter_congr fun r _ => rfl
  rw [hpred, h2]
  simp [htz]

/-- Witness for C3: object 1 committed at tid 10 and again at tid 20;
afterwards the single row for object 1 carries tid 20 and the second
commit's state. -/
theorem move_from_temp_hf_replaces_witness :
    (move_from_temp_object_state
        (move_from_temp_object_state [] [⟨1, 0, none, some [7]⟩] 10)
        [⟨1, 10, none, some [8]⟩] 20).filter (fun s => s.zoid == 1)
      = [⟨1, 20, 1, some [8]⟩] := by
  have h := move_from_temp_hf_replaces [] [⟨1, 0, none, some [7]⟩]
    [⟨1, 10, none, some [8]⟩] 10 20 1 ⟨1, 10, none, some [8]⟩
    ⟨⟨1, 0, none, some [7]⟩, by decide, rfl⟩ (by decide)
  exact h.trans (by decide)

lemma filter_key_find_some {α : Type} (key : α → Nat) (l : List α) (z : Nat)
    (hnd : (l.map key).Nodup) (q : α → Bool) (c : α)
    (hfind : l.find? (fun x => key x == z) = some c) :
    l.filter (fun x => key x == z && q x) = if q c then [c] else [] := by
  rw [filter_key_find key l z hnd q, hfind]

lemma filter_key_find_none {α : Type} (key : α → Nat) (l : List α) (z : Nat)
    (hnd : (l.map key).Nodup) (q : α → Bool)
    (hfind : l.find? (fun x => key x == z) = none) :
    l.filter (fun x => key x == z && q x) = [] := by
  rw [filter_key_find key l z hnd q, hfind]

/-- A dictionary fold over rows none of which carry key `z` leaves the
entry for `z` unchanged. -/
lemma current_object_tids_fold_none (rows : List CurrentObjectRow)
    (res : Nat → Option Nat) (z : Nat) (h : ∀ c ∈ rows, c.zoid ≠ z) :
    current_object_tids_fold res rows z = res z := by
  induction rows generalizing res with
  | nil => rfl
  | cons c cs ih =>
    have hstep : current_object_tids_fold res (c :: cs) =
        current_object_tids_fold
          (fun z' => if z' == c.zoid then some c.tid else res z') cs := rfl
    rw [hstep, ih _ (fun a ha => h a (List.mem_cons_of_mem c ha))]
    have hne : z ≠ c.zoid := Ne.symm (h c (List.mem_cons_self c cs))
    have hbeq : (z == c.zoid) = false := by simpa using hne
    simp [hbeq]

/-- A dictionary fold over rows among which exactly one carries key
`z` sets the entry for `z` to that row's tid. -/
lemma current_object_tids_fold_found (rows : List CurrentObjectRow)
    (res : Nat → Option Nat) (z : Nat) (c : CurrentObjectRow)
    (h : rows.filter (fun x => x.zoid == z) = [c]) :
    current_object_tids_fold res rows z = some c.tid := by
  induction rows generalizing res with
  | nil => exact absurd h (by simp)
  | cons r rs ih =>
    have hstep : current_object_tids_fold res (r :: rs) =
        current_object_tids_fold
          (fun z' => if z' == r.zoid then some r.tid else res z') rs := rfl
    by_cases hr : r.zoid = z
    · have hbeq : (r.zoid == z) = true := by simpa using hr
      rw [List.filter_cons] at h
      simp only [hbeq, if_true] at h
      injection h with hrc hnil
      have hnone : ∀ a ∈ rs, a.zoid ≠ z := by
        intro a ha he
        have hmem : a ∈ rs.filter (fun x => x.zoid == z) :=
          List.mem_filter.mpr ⟨ha, by simpa using he⟩
        rw [hnil] at hmem
        exact absurd hmem (List.not_mem_nil a)
      rw [hstep, current_object_tids_fold_none rs _ z hnone]
      have hzb : (z == r.zoid) = true := by simpa using hr.symm
      rw [if_pos hzb, hrc]
    · have hbeq : (r.zoid == z) = false := by simpa using hr
      rw [List.filter_cons] at h
      simp only [hbeq, Bool.false_eq_true, if_false] at h
      rw [hstep, ih _ h]

/-- The chunking loop computes, for every key, the unchunked lookup:
an input id with a current row maps to its tid no matter the chunk
size, any other key keeps its initial entry. -/
lemma current_object_tids_loop_lookup (m : Nat) (cur : List CurrentObjectRow)
    (hnd : (cur.map (fun c => c.zoid)).Nodup) :
    ∀ (n : Nat) (oids : List Nat), oids.length ≤ n →
      ∀ (res : Nat → Option Nat) (z : Nat),
      current_object_tids_loop m cur oids res z =
        (if z ∈ oids then
          (match cur.find? (fun c => c.zoid == z) with
          | some c => some c.tid
          | none => res z)
        else res z) := by
  intro n
  induction n with
  | zero =>
    intro oids hlen res z
    have hnil : oids = [] := List.eq_nil_of_length_eq_zero (Nat.le_zero.mp hlen)
    subst hnil
    simp [current_object_tids_loop]
  | succ k ih =>
    intro oids hlen res z
    cases oids with
    | nil => simp [current_object_tids_loop]
    | cons oid rest =>
      rw [current_object_tids_loop]
      have hlen2 : (rest.drop m).length ≤ k := by
        rw [List.length_drop]
        have hr : rest.length + 1 ≤ k + 1 := by simpa using hlen
        omega
      rw [ih (rest.drop m) hlen2]
      have hsplit : oid :: rest = (oid :: rest.take m) ++ rest.drop m := by
        rw [List.cons_append, List.take_append_drop]
      have hmem : (z ∈ oid :: rest) ↔
          (z ∈ oid :: rest.take m ∨ z ∈ rest.drop m) := by
        rw [hsplit, List.mem_append]
      by_cases hch : z ∈ oid :: rest.take m
      · cases hfind : cur.find? (fun c => c.zoid == z) with
        | some c =>
          have hcz : c.zoid = z := by simpa using List.find?_some hfind
          have hres : current_object_tids_fold res
              (cur.filter (fun c => (oid :: rest.take m).contains c.zoid)) z
              = some c.tid := by
            apply current_object_tids_fold_found
            rw [List.filter_filter,
              filter_key_find_some (fun x => x.zoid) cur z hnd
                (fun x => (oid :: rest.take m).contains x.zoid) c hfind]
            rw [if_pos (by rw [hcz]; exact List.elem_iff.mpr hch)]
          by_cases hd : z ∈ rest.drop m
          · rw [if_pos hd, if_pos (hmem.mpr (Or.inl hch))]
          · rw [if_neg hd, if_pos (hmem.mpr (Or.inl hch)), hres]
        | none =>
          have hres : current_object_tids_fold res
              (cur.filter (fun c => (oid :: rest.take m).contains c.zoid)) z
              = res z := by
            apply current_object_tids_fold_none
            intro a ha he
            exact (List.find?_eq_none.mp hfind a (List.mem_filter.mp ha).1)
              (by simpa using he)
          by_cases hd : z ∈ rest.drop m
          · rw [if_pos hd, if_pos (hmem.mpr (Or.inl hch))]
            exact hres
          · rw [if_neg hd, if_pos (hmem.mpr (Or.inl hch))]
            exact hres
      · have hres : current_object_tids_fold res
            (cur.filter (fun c => (oid :: rest.take m).contains c.zoid)) z
            = res z := by
          apply current_object_tids_fold_none
          intro a ha he
          have hac := (List.mem_filter.mp ha).2
          rw [he] at hac
          exact hch (List.elem_iff.mp hac)
        by_cases hd : z ∈ rest.drop m
        · rw [if_pos hd, if_pos (hmem.mpr (Or.inr hd))]
          cases hfind : cur.find? (fun c => c.zoid == z) with
          | some c => rfl
          | none => exact hres
        · have hzout : z ∉ oid :: rest := fun hin => by
            rcases hmem.mp hin with h | h
            exacts [hch h, hd h]
          rw [if_neg hd, if_neg hzout]
          exact hres

/-- Claim C9: `current_object_tids(oids)` returns, for an input set of
any size, a mapping with an entry `oid ↦ tid` for exactly those input
ids that have a current row — input ids without one and ids outside
the input are absent — and the result is the same for every chunk
size, in particular for the source's chunks of 1000. -/
theorem current_object_tids_correct (cur : List CurrentObjectRow)
    (hnd : (cur.map (fun c => c.zoid)).Nodup) (oids : List Nat) :
    (∀ (m z : Nat),
      current_object_tids_loop m cur oids (fun _ => none) z =
        (if z ∈ oids then (cur.find? (fun c => c.zoid == z)).map (fun c => c.tid)
        else none))
    ∧ (∀ z : Nat, current_object_tids cur oids z =
        (if z ∈ oids then (cur.find? (fun c => c.zoid == z)).map (fun c => c.tid)
        else none)) := by
  have hloop : ∀ (m z : Nat),
      current_object_tids_loop m cur oids (fun _ => none) z =
        (if z ∈ oids then (cur.find? (fun c => c.zoid == z)).map (fun c => c.tid)
        else none) := by
    intro m z
    rw [current_object_tids_loop_lookup m cur hnd oids.length oids (le_refl _)]
    cases hfind : cur.find? (fun c => c.zoid == z) with
    | some c => by_cases hz : z ∈ oids <;> simp [hz]
    | none => by_cases hz : z ∈ oids <;> simp [hz]
  exact ⟨hloop, fun z => hloop 999 z⟩

/-- Witness for C9: with current rows `1 ↦ 10` and `2 ↦ 20` and input
ids `[1, 3]`, the mapping answers `some 10` for 1, nothing for the
never-stored 3, and nothing for 2 which was not asked about. -/
theorem current_object_tids_correct_witness :
    current_object_tids [⟨1, 10⟩, ⟨2, 20⟩] [1, 3] 1 = some 10
    ∧ current_object_tids [⟨1, 10⟩, ⟨2, 20⟩] [1, 3] 3 = none
    ∧ current_object_tids [⟨1, 10⟩, ⟨2, 20⟩] [1, 3] 2 = none := by
  have h := current_object_tids_correct [⟨1, 10⟩, ⟨2, 20⟩] (by decide) [1, 3]
  exact ⟨(h.2 1).trans (by decide), (h.2 3).trans (by decide),
    (h.2 2).trans (by decide)⟩
